import Mathlib

/-!
Verification of the ingestion engine of Client_API_VN against its source.

The embedding covers:
* `src/biolovision/api.py` — the chunked-pagination fetch loop `_url_get`
  with its cumulative retry budget, and the credential-masking helper
  `_clean_params`;
* `src/export_vn/download_vn.py` — the diff-classification loop of
  `Observations.update` and the windowed search walk of
  `Observations._store_search`;
* `src/export_vn/store_postgresql.py` — the upsert paths `_store_simple`,
  `_store_form`, `store_1_observation`, the UUID cross-reference step
  `_store_uuid`, and the producer-side event order of `_store_observation`.

Python dicts are modelled as association lists or explicit structures,
HTTP traffic as a list of abstract responses, and SQL tables as lists of
rows keyed by (id, site).  Real-time effects (`time.sleep`), logging and
the floating-point coordinate reprojection are outside the model and are
noted at the definitions concerned.  The PID regulator lives in
`export_vn/regulator.py`, which is not part of the sources at hand; it is
modelled from the specification where noted.
-/

/-! ## Chunked responses (`biolovision/api.py`, `_url_get`, lines 192-346)

A wire chunk is the decoded JSON body of one response.  `_url_get`
distinguishes four shapes:
* a mapping with a `data` key whose value is a mapping that may carry
  `sightings` and/or `forms` lists (`Chunk.dataObs`);
* a mapping with a `data` key whose value is a plain list (`Chunk.dataList`);
* a raw list without a `data` key (`Chunk.raw`) — the diff endpoint;
* the empty mapping substituted when JSON decoding fails (`Chunk.empty`).
List elements are opaque (`α`). -/
inductive Chunk (α : Type) where
  | raw (items : List α)
  | empty
  | dataList (items : List α)
  | dataObs (sightings : Option (List α)) (forms : Option (List α))
deriving DecidableEq

/-- One HTTP response as seen by `_url_get`: its status code, its decoded
body (`none` when `resp.json()` raises), and whether the two continuation
headers (`transfer-encoding: chunked` and `pagination_key`) are both
present. -/
structure Response (α : Type) where
  status : Nat
  chunk : Option (Chunk α)
  cont : Bool
deriving DecidableEq

/-- Outcome of `_url_get`: the returned accumulator, or one of the raised
exceptions (`HTTPError` on status errors, `HTTPError("resp.json exception")`
on decode errors, `MaxChunksError`).  Each constructor carries the final
`_transfer_errors` and `_http_status` session counters.  `noResponse` marks
the model artifact of a finite response trace running out; `crash` stands
for a Python `TypeError`/`KeyError`/`NameError` escaping the loop. -/
inductive FetchOutcome (α : Type) where
  | ok (errors status : Nat) (data : Chunk α)
  | httpError (errors status : Nat)
  | jsonError (errors status : Nat)
  | maxChunksError (errors status : Nat)
  | noResponse
  | crash
deriving DecidableEq

/-- Result of handling one response inside the loop: either the call
finishes with an outcome, or the loop iterates with updated
`_transfer_errors`, `_http_status`, `nb_chunks` and `data_rec`. -/
inductive StepResult (α : Type) where
  | done (outcome : FetchOutcome α)
  | next (errors status nbChunks : Nat) (acc : Option (Chunk α))
deriving DecidableEq

/-- Merge of one named list of the accumulator with the same-named list of
the next chunk (lines 276-300): if the new chunk lacks the key the
accumulator field is untouched; if the accumulator lacks it the field is
set; otherwise the lists are concatenated in arrival order. -/
def mergeField {α : Type} (accF newF : Option (List α)) : Option (List α) :=
  match newF with
  | none => accF
  | some l =>
    match accF with
    | some al => some (al ++ l)
    | none => some l

/-- Merge of the next decoded chunk into the accumulator `data_rec`
(lines 266-321), for a chunk after the first.  `none` stands for the
Python `TypeError`/`KeyError` the source hits when the shapes do not line
up (e.g. `data_rec["data"] += resp_chunk["data"]` with a mapping on either
side).  A list-membership test such as `"sightings" in resp_chunk["data"]`
on a plain list is `False` for the opaque elements modelled here, and a
Python list extended by the empty mapping is unchanged. -/
def mergeChunk {α : Type} : Chunk α → Chunk α → Option (Chunk α)
  | acc, .dataObs s f =>
    if s.isSome ∨ f.isSome then
      match acc with
      | .dataObs as af => some (.dataObs (mergeField as s) (mergeField af f))
      | _ => none
    else
      none
  | .dataList as, .dataList items => some (.dataList (as ++ items))
  | _, .dataList _ => none
  | .raw as, .raw items => some (.raw (as ++ items))
  | _, .raw _ => none
  | .raw as, .empty => some (.raw as)
  | _, .empty => none

/-- Seeding or merging of a successful chunk (lines 276-321): when
`nb_chunks == 0` the chunk becomes the accumulator, otherwise it is merged
into the existing accumulator (`none` acc with `nb_chunks ≠ 0` cannot
occur and would be a Python `NameError`). -/
def seedOrMerge {α : Type} (nbChunks : Nat) (acc : Option (Chunk α)) (c : Chunk α) :
    Option (Chunk α) :=
  if nbChunks = 0 then some c
  else
    match acc with
    | some a => mergeChunk a c
    | none => none

/-- Tail of one successful iteration (lines 266-340): merge the decoded
chunk, then continue to the next chunk when the response signals
continuation (incrementing `nb_chunks` and keeping `pagination_key` on the
request), or leave the loop — which re-checks `nb_chunks >= max_chunks`
(lines 342-344) before returning the accumulator. -/
def chunk_step {α : Type} (maxChunks : Nat) (r : Response α) (errors nbChunks : Nat)
    (acc : Option (Chunk α)) (c : Chunk α) : StepResult α :=
  match seedOrMerge nbChunks acc c with
  | none => .done .crash
  | some newAcc =>
    if r.cont then .next errors r.status (nbChunks + 1) (some newAcc)
    else
      if maxChunks ≤ nbChunks then .done (.maxChunksError errors r.status)
      else .done (.ok errors r.status newAcc)

/-- Handling of one response (lines 229-340).  `_http_status` is set to the
response status.  A non-success status increments `_transfer_errors`,
sleeps the fixed inter-retry delay (a real-time effect outside the model)
and re-issues the same request — the `.next` state keeps `nb_chunks` and
`data_rec` untouched — unless the counter now exceeds `max_retry`, in
which case `HTTPError(resp.status_code)` is raised.  On success a decode
failure counts on the same error budget and substitutes the empty mapping
before processing continues. -/
def url_step {α : Type} (maxRetry maxChunks : Nat) (r : Response α) (errors nbChunks : Nat)
    (acc : Option (Chunk α)) : StepResult α :=
  if r.status ≠ 200 then
    if maxRetry < errors + 1 then .done (.httpError (errors + 1) r.status)
    else .next (errors + 1) r.status nbChunks acc
  else
    match r.chunk with
    | none =>
      if maxRetry < errors + 1 then .done (.jsonError (errors + 1) r.status)
      else chunk_step maxChunks r (errors + 1) nbChunks acc Chunk.empty
    | some c => chunk_step maxChunks r errors nbChunks acc c

/-- The chunk loop of `_url_get` (lines 192-346): while
`nb_chunks < max_chunks`, consume the next response of the trace; on
leaving the loop with `nb_chunks ≥ max_chunks`, raise `MaxChunksError`. -/
def url_get_loop {α : Type} (maxRetry maxChunks : Nat) :
    List (Response α) → Nat → Nat → Nat → Option (Chunk α) → FetchOutcome α
  | [], errors, status, nbChunks, _ =>
    if nbChunks < maxChunks then .noResponse else .maxChunksError errors status
  | r :: rest, errors, status, nbChunks, acc =>
    if nbChunks < maxChunks then
      match url_step maxRetry maxChunks r errors nbChunks acc with
      | .done outcome => outcome
      | .next e2 s2 nb2 acc2 => url_get_loop maxRetry maxChunks rest e2 s2 nb2 acc2
    else .maxChunksError errors status

/-- `_url_get` run on a freshly constructed client:
`_transfer_errors = 0`, `_http_status = 0`, no chunk consumed yet. -/
def url_get {α : Type} (maxRetry maxChunks : Nat) (trace : List (Response α)) :
    FetchOutcome α :=
  url_get_loop maxRetry maxChunks trace 0 0 0 none

/-- Value of `_http_status` after a run of responses: the last response's
status, or the incoming value for an empty run. -/
def lastStatus {α : Type} (s : Nat) : List (Response α) → Nat
  | [] => s
  | r :: rest => lastStatus r.status rest

/-- Trace of a provider that answers every request successfully with the
given chunk bodies, signalling continuation between consecutive chunks and
completion after the last one. -/
def successTrace {α : Type} : List (Chunk α) → List (Response α)
  | [] => []
  | [c] => [⟨200, some c, false⟩]
  | c :: c2 :: cs => ⟨200, some c, true⟩ :: successTrace (c2 :: cs)

/-! ## Credential masking (`biolovision/api.py`, `_clean_params`, lines 151-157)

Python dicts of request parameters are modelled as association lists in
insertion order; `dictSet` is dict assignment (replace the unique entry in
place, else append) and `dictGet` is dict lookup. -/

/-- Key of the user email credential parameter. -/
def emailKey : String := "user_email"

/-- Key of the user password credential parameter. -/
def pwKey : String := "user_pw"

/-- Replacement written over credential values before logging. -/
def maskValue : String := "***"

/-- Dict assignment `d[k] = v`: replace the entry in place if the key is
present, else append the new entry. -/
def dictSet : List (String × String) → String → String → List (String × String)
  | [], k, v => [(k, v)]
  | p :: rest, k, v => if p.1 = k then (k, v) :: rest else p :: dictSet rest k v

/-- Dict lookup `d[k]`. -/
def dictGet : List (String × String) → String → Option String
  | [], _ => none
  | p :: rest, k => if p.1 = k then some p.2 else dictGet rest k

/-- `_clean_params` (lines 151-157): copy the parameter dict — the model is
pure, so the argument is inherently left unmodified, which is what the
`copy` in the source achieves — then overwrite the `user_email` and
`user_pw` entries with the mask. -/
def clean_params (params : List (String × String)) : List (String × String) :=
  dictSet (dictSet params emailKey maskValue) pwKey maskValue

/-! ## Diff classification (`export_vn/download_vn.py`, `Observations.update`,
lines 426-463) -/

/-- One item of a diff response: sighting id, universal id, and the
modification marker string. -/
structure DiffItem where
  id_sighting : Nat
  id_universal : Nat
  modification_type : String
deriving DecidableEq

/-- Marker of an updated observation. -/
def updatedTag : String := "updated"

/-- Marker of a deleted observation. -/
def deletedTag : String := "deleted"

/-- Payload of the exception raised on an unrecognized modification marker
(the source logs `id_universal` and the marker, then raises its
`NotImplementedException` — the spec's `UnknownModificationType`). -/
structure UnknownModification where
  id_universal : Nat
  modification_type : String
deriving DecidableEq

/-- Backend-visible operations of one incremental sync for one taxo group
(audit logging elided): an individual re-fetch (`api_get`), an upsert of
the re-fetched record (`store`), and the single batch delete
(`delete_obs`). -/
inductive SyncOp where
  | apiGet (id : Nat)
  | store (id : Nat)
  | deleteObs (ids : List Nat)
deriving DecidableEq

/-- The classification loop over diff items (lines 427-439): append each
`updated` id to the `updated` list and each `deleted` id to the `deleted`
list, in arrival order; any other marker raises before the loop finishes. -/
def classify : List DiffItem → List Nat → List Nat →
    Except UnknownModification (List Nat × List Nat)
  | [], upd, del => .ok (upd, del)
  | it :: rest, upd, del =>
    if it.modification_type = updatedTag then classify rest (upd ++ [it.id_sighting]) del
    else if it.modification_type = deletedTag then classify rest upd (del ++ [it.id_sighting])
    else .error ⟨it.id_universal, it.modification_type⟩

/-- Backend operations of `Observations.update` for one taxo group after
the diff fetch (lines 427-463): classify everything first; only then fetch
and store each updated id individually, and issue one batch delete when
the deleted list is non-empty.  A classification error aborts before any
operation is issued. -/
def update_ops (items : List DiffItem) : Except UnknownModification (List SyncOp) :=
  match classify items [] [] with
  | .error err => .error err
  | .ok (upd, del) =>
    .ok ((upd.flatMap fun i => [SyncOp.apiGet i, SyncOp.store i]) ++
      (if 0 < del.length then [SyncOp.deleteObs del] else []))

/-- Ids of the items carrying the `updated` marker, in arrival order. -/
def updatedIds (items : List DiffItem) : List Nat :=
  (items.filter fun it => it.modification_type = updatedTag).map DiffItem.id_sighting

/-- Ids of the items carrying the `deleted` marker, in arrival order. -/
def deletedIds (items : List DiffItem) : List Nat :=
  (items.filter fun it => it.modification_type = deletedTag).map DiffItem.id_sighting

/-! ## Storage tables (`export_vn/store_postgresql.py`)

A table is a list of rows in insertion order; every table of the import
schema is keyed by (id, site).  `tableFind` models the
`select ... where id = .. and site = ..` followed by `fetchone`,
`tableUpdate` the `update ... where id = .. and site = ..`, and insertion
appends the new row. -/

/-- One row of a table keyed by (id, site); `payload` is the remaining
columns. -/
structure Row (β : Type) where
  id : Nat
  site : String
  payload : β
deriving DecidableEq

/-- The `where id = .. and site = ..` condition. -/
def keyMatch {β : Type} (i : Nat) (s : String) (r : Row β) : Bool :=
  decide (r.id = i ∧ r.site = s)

/-- `select` + `fetchone` on the (id, site) key. -/
def tableFind {β : Type} (t : List (Row β)) (i : Nat) (s : String) : Option (Row β) :=
  t.find? (keyMatch i s)

/-- Number of rows carrying the (id, site) key. -/
def keyCount {β : Type} (t : List (Row β)) (i : Nat) (s : String) : Nat :=
  t.countP (keyMatch i s)

/-- SQL `update ... where id = .. and site = ..` writing the key columns
and the new payload. -/
def tableUpdate {β : Type} (t : List (Row β)) (i : Nat) (s : String) (p : β) :
    List (Row β) :=
  t.map fun r => if keyMatch i s r then (⟨i, s, p⟩ : Row β) else r

/-- Body of the `_store_simple` loop for one element (lines 733-760):
select the row by (id, site); insert a new row if absent, else update it
in place with the re-serialized record. -/
def store_simple_elem (site : String) (t : List (Row String)) (elemId : Nat)
    (elemJson : String) : List (Row String) :=
  match tableFind t elemId site with
  | none => t ++ [⟨elemId, site, elemJson⟩]
  | some _ => tableUpdate t elemId site elemJson

/-- One element of a simple controller response: its `id` and its
serialized JSON body. -/
structure SimpleElem where
  id : Nat
  body : String
deriving DecidableEq

/-- `_store_simple` (lines 709-766): upsert every element of the `data`
array in order and return the element count. -/
def store_simple (site : String) (t : List (Row String)) (data : List SimpleElem) :
    List (Row String) × Nat :=
  (data.foldl (fun acc e => store_simple_elem site acc e.id e.body) t, data.length)

/-- The non-sighting part of one form, keyed by its `@id` field, with its
serialized body (the local-coordinate addition is folded into the body). -/
structure FormElem where
  atId : Nat
  body : String
deriving DecidableEq

/-- `_store_form` (lines 795-853): select the form row by (`@id`, site);
insert if absent, else update in place. -/
def store_form (site : String) (t : List (Row String)) (f : FormElem) :
    List (Row String) :=
  match tableFind t f.atId site with
  | none => t ++ [⟨f.atId, site, f.body⟩]
  | some _ => tableUpdate t f.atId site f.body

/-- One observation element as consumed by `store_1_observation`:
`observers[0]` carries the sighting id, the universal id, the optional
update timestamp and the insert timestamp; `body` stands for the
serialized record (after the coordinate reprojection, which is
floating-point and outside the model). -/
structure ObsElem where
  id_sighting : Nat
  id_universal : Nat
  update_date : Option Nat
  insert_date : Nat
  body : String
deriving DecidableEq

/-- Timestamp resolution of `store_1_observation` (lines 118-123): the
update timestamp when present, else the insert timestamp. -/
def obs_update_ts (e : ObsElem) : Nat :=
  e.update_date.getD e.insert_date

/-- `store_1_observation` (lines 99-158): resolve the timestamp, select
the row by (id, site); insert a new row with the serialized record and the
timestamp if absent, else update those two columns in place. -/
def store_1_observation (site : String) (t : List (Row (String × Nat))) (e : ObsElem) :
    List (Row (String × Nat)) :=
  match tableFind t e.id_sighting site with
  | none => t ++ [⟨e.id_sighting, site, (e.body, obs_update_ts e)⟩]
  | some _ => tableUpdate t e.id_sighting site (e.body, obs_update_ts e)

/-- Payload of a `uuid_xref` row: universal id, uuid and assignment
timestamp (the nullable `alias` column is never written by the source and
is elided). -/
structure UuidData where
  universal_id : Nat
  uuid : Nat
  update_ts : Nat
deriving DecidableEq

/-- `_store_uuid` (lines 855-900): select the identity row by (id, site);
when absent, insert a row with the universal id, a fresh uuid (`uuid4()`)
and the current time (`datetime.now()`) — both nondeterministic inputs
passed as arguments here; when present, do nothing. -/
def store_uuid (site : String) (t : List (Row UuidData)) (obsId universalId : Nat)
    (freshUuid now : Nat) : List (Row UuidData) :=
  match tableFind t obsId site with
  | none => t ++ [⟨obsId, site, ⟨universalId, freshUuid, now⟩⟩]
  | some _ => t

/-! ## Producer-side ordering of `_store_observation`
(`export_vn/store_postgresql.py`, lines 902-972) -/

/-- A sighting as keyed inside `_store_observation`
(`elem['observers'][0]`). -/
structure Sighting where
  id_sighting : Nat
  id_universal : Nat
deriving DecidableEq

/-- One form of the response: its `@id` and its embedded sightings (the
other fields go to the forms-upsert path unchanged). -/
structure FormInput where
  formId : Nat
  sightings : List Sighting
deriving DecidableEq

/-- Observable events of the producer thread in `_store_observation`:
a synchronous `_store_uuid` call, a `queue.put` of a write task, and a
synchronous `_store_form` call. -/
inductive StoreEvent where
  | uuidCreated (id : Nat)
  | enqueued (id : Nat)
  | formStored (id : Nat)
deriving DecidableEq

/-- Events of the top-level sightings loop (lines 931-941): for each
sighting, `_store_uuid` is called synchronously, then the write task is
enqueued. -/
def topSightingEvents : List Sighting → List StoreEvent
  | [] => []
  | e :: rest =>
    .uuidCreated e.id_sighting :: .enqueued e.id_sighting :: topSightingEvents rest

/-- Events of the forms loop (lines 943-961): for each form, its embedded
sightings are enqueued directly — with no `_store_uuid` call — and then
the form's remaining fields are stored through `_store_form`. -/
def formEvents : List FormInput → List StoreEvent
  | [] => []
  | f :: rest =>
    (f.sightings.map fun s => StoreEvent.enqueued s.id_sighting) ++
      (StoreEvent.formStored f.formId :: formEvents rest)

/-- `_store_observation` (lines 902-972) as its producer-side event trace
together with the returned `nb_obs` count: the top-level sightings loop
first, then the forms loop when the response carries forms. -/
def store_observation_events (sightings : List Sighting)
    (forms : Option (List FormInput)) : List StoreEvent × Nat :=
  (topSightingEvents sightings ++
    (match forms with
     | none => []
     | some fs => formEvents fs),
   sightings.length +
    (match forms with
     | none => 0
     | some fs => (fs.map fun f => f.sightings.length).sum))

/-- Ordering property claimed for the pipeline: every enqueued write task
is preceded by the uuid creation for the same sighting id. -/
def uuidBeforeEnqueue (evs : List StoreEvent) : Prop :=
  ∀ (j k : Nat), evs[j]? = some (StoreEvent.enqueued k) →
    ∃ i : Nat, i < j ∧ evs[i]? = some (StoreEvent.uuidCreated k)

/-! ## Rate regulator and search walk
(`export_vn/download_vn.py`, `Observations._store_search`, lines 284-321)

`_store_search` constructs
`PID(kp=0.0, ki=0.003, kd=0.0, setpoint=10000, output_limits=(10, 2000))`
and starts with `delta_days = 15`.  The `PID` class itself lives in
`export_vn/regulator.py`, which is not among the sources at hand. -/

/-- Proportional gain `kp` passed by `_store_search` (line 288). -/
def pidKp : ℚ := 0

/-- Integral gain `ki` passed by `_store_search` (line 289). -/
def pidKi : ℚ := 3 / 1000

/-- Derivative gain `kd` passed by `_store_search` (line 290). -/
def pidKd : ℚ := 0

/-- Setpoint passed by `_store_search` (line 291). -/
def pidSetpoint : ℚ := 10000

/-- Lower output limit passed by `_store_search` (line 292). -/
def pidOutMin : ℚ := 10

/-- Upper output limit passed by `_store_search` (line 292). -/
def pidOutMax : ℚ := 2000

/-- Initial `delta_days` of `_store_search` (line 293). -/
def initialDeltaDays : ℚ := 15

/-- Modelled from the spec: the `PID` controller of
`export_vn/regulator.py` (not among the sources) with only the integral
term active behaves as an integrating controller — each observed count
moves the window size by the integral gain times (setpoint − observed),
saturated to the output bounds at each step. -/
def pidStep (w observed : ℚ) : ℚ :=
  max pidOutMin (min pidOutMax (w + pidKi * (pidSetpoint - observed)))

/-- Window size after `n` feedback iterations on the observed counts,
starting from the initial 15 days. -/
def pidIterate (counts : ℕ → ℚ) : ℕ → ℚ
  | 0 => initialDeltaDays
  | n + 1 => pidStep (pidIterate counts n) (counts n)

/-- The window walk of `_store_search` (lines 294-320), with dates as
integer day numbers: while `start_date > min_date`, query the window
`[end_date - delta_days, end_date]`, store its result, then slide
`end_date` to the window start and set `delta_days = int(pid(nb_obs))` —
`int` truncation coincides with the floor on the positive outputs produced
here.  `counts k` is the record count the backend reports for iteration
`k`; `w` is the regulator's current window size and `delta` the integer
day count in use, strictly positive by the output clamp.  The walk
terminates because every iteration moves `endD` down by at least one
day. -/
def store_search (counts : ℕ → ℚ) (minD : ℤ) (endD : ℤ) (delta : ℤ) (w : ℚ) (k : ℕ)
    (h : 1 ≤ delta) : List (ℤ × ℤ) :=
  if hgt : minD < endD then
    (endD - delta, endD) ::
      store_search counts minD (endD - delta) ⌊pidStep w (counts k)⌋
        (pidStep w (counts k)) (k + 1)
        (Int.le_floor.mpr (le_trans (by norm_num [pidOutMin]) (le_max_left pidOutMin _)))
  else []
termination_by (endD - minD).toNat
decreasing_by omega

/-! ## Loop-step lemmas for `_url_get` -/

theorem url_get_loop_nil {α : Type} (mr mc e s nb : ℕ) (acc : Option (Chunk α)) :
    url_get_loop mr mc [] e s nb acc =
      if nb < mc then .noResponse else .maxChunksError e s := rfl

theorem url_get_loop_cons {α : Type} (mr mc e s nb : ℕ) (r : Response α)
    (rest : List (Response α)) (acc : Option (Chunk α)) (hnb : nb < mc) :
    url_get_loop mr mc (r :: rest) e s nb acc =
      match url_step mr mc r e nb acc with
      | .done outcome => outcome
      | .next e2 s2 nb2 acc2 => url_get_loop mr mc rest e2 s2 nb2 acc2 := by
  rw [url_get_loop.eq_def]; simp [hnb]

theorem url_get_loop_cons_next {α : Type} (mr mc e s nb : ℕ) (r : Response α)
    (rest : List (Response α)) (acc : Option (Chunk α)) (hnb : nb < mc)
    (e2 s2 nb2 : ℕ) (acc2 : Option (Chunk α))
    (hstep : url_step mr mc r e nb acc = .next e2 s2 nb2 acc2) :
    url_get_loop mr mc (r :: rest) e s nb acc =
      url_get_loop mr mc rest e2 s2 nb2 acc2 := by
  rw [url_get_loop_cons mr mc e s nb r rest acc hnb, hstep]

theorem url_get_loop_cons_done {α : Type} (mr mc e s nb : ℕ) (r : Response α)
    (rest : List (Response α)) (acc : Option (Chunk α)) (hnb : nb < mc)
    (outcome : FetchOutcome α)
    (hstep : url_step mr mc r e nb acc = .done outcome) :
    url_get_loop mr mc (r :: rest) e s nb acc = outcome := by
  rw [url_get_loop_cons mr mc e s nb r rest acc hnb, hstep]

theorem url_step_err {α : Type} (mr mc : ℕ) (r : Response α) (e nb : ℕ)
    (acc : Option (Chunk α)) (hr : r.status ≠ 200) (hnr : ¬ mr < e + 1) :
    url_step mr mc r e nb acc = .next (e + 1) r.status nb acc := by
  rw [url_step]; simp [hr, hnr]

theorem url_step_err_raise {α : Type} (mr mc : ℕ) (r : Response α) (e nb : ℕ)
    (acc : Option (Chunk α)) (hr : r.status ≠ 200) (hrr : mr < e + 1) :
    url_step mr mc r e nb acc = .done (.httpError (e + 1) r.status) := by
  rw [url_step]; simp [hr, hrr]

theorem url_step_ok {α : Type} (mr mc : ℕ) (r : Response α) (e nb : ℕ)
    (acc : Option (Chunk α)) (c : Chunk α) (hst : r.status = 200) (hch : r.chunk = some c) :
    url_step mr mc r e nb acc = chunk_step mc r e nb acc c := by
  rw [url_step]; simp [hst, hch]

theorem chunk_step_cont {α : Type} (mc : ℕ) (r : Response α) (e nb : ℕ)
    (acc : Option (Chunk α)) (c newAcc : Chunk α) (hcont : r.cont = true)
    (hmerge : seedOrMerge nb acc c = some newAcc) :
    chunk_step mc r e nb acc c = .next e r.status (nb + 1) (some newAcc) := by
  rw [chunk_step]; simp [hmerge, hcont]

theorem chunk_step_break {α : Type} (mc : ℕ) (r : Response α) (e nb : ℕ)
    (acc : Option (Chunk α)) (c newAcc : Chunk α) (hcont : r.cont = false)
    (hnb : nb < mc) (hmerge : seedOrMerge nb acc c = some newAcc) :
    chunk_step mc r e nb acc c = .done (.ok e r.status newAcc) := by
  rw [chunk_step]
  have hle : ¬ mc ≤ nb := by omega
  simp [hmerge, hcont, hle]

/-! ## C1 — retry budget of `_url_get` -/

theorem url_get_loop_errors {α : Type} (mr mc : ℕ) (hmc : 0 < mc) :
    ∀ (errs rest : List (Response α)) (e s : ℕ),
      (∀ r ∈ errs, r.status ≠ 200) → e + errs.length ≤ mr →
      url_get_loop mr mc (errs ++ rest) e s 0 none =
        url_get_loop mr mc rest (e + errs.length) (lastStatus s errs) 0 none := by
  intro errs
  induction errs with
  | nil => intro rest e s _ _; simp [lastStatus]
  | cons r errs ih =>
    intro rest e s herr hbud
    have hr : r.status ≠ 200 := herr r (List.mem_cons_self _ _)
    have hnr : ¬ mr < e + 1 := by
      simp only [List.length_cons] at hbud; omega
    rw [List.cons_append, url_get_loop_cons_next mr mc e s 0 r (errs ++ rest) none hmc
      (e + 1) r.status 0 none (url_step_err mr mc r e 0 none hr hnr)]
    rw [ih rest (e + 1) r.status (fun x hx => herr x (List.mem_cons_of_mem _ hx))
      (by simp only [List.length_cons] at hbud; omega)]
    simp only [List.length_cons, lastStatus]
    congr 1
    omega

theorem url_get_loop_errors_raise {α : Type} (mr mc : ℕ) (hmc : 0 < mc) :
    ∀ (errs rest : List (Response α)) (e s : ℕ),
      (∀ r ∈ errs, r.status ≠ 200) → errs ≠ [] → e + errs.length = mr + 1 →
      ∃ rl, errs.getLast? = some rl ∧
        url_get_loop mr mc (errs ++ rest) e s 0 none = .httpError (mr + 1) rl.status := by
  intro errs
  induction errs with
  | nil => intro rest e s _ hne _; exact absurd rfl hne
  | cons r errs ih =>
    intro rest e s herr _ hbud
    have hr : r.status ≠ 200 := herr r (List.mem_cons_self _ _)
    match errs with
    | [] =>
      refine ⟨r, rfl, ?_⟩
      have hrr : mr < e + 1 := by simp at hbud; omega
      have he : e + 1 = mr + 1 := by simp at hbud; omega
      rw [List.cons_append, url_get_loop_cons_done mr mc e s 0 r ([] ++ rest) none hmc
        (.httpError (e + 1) r.status) (url_step_err_raise mr mc r e 0 none hr hrr), he]
    | r2 :: errs2 =>
      have hnr : ¬ mr < e + 1 := by
        simp only [List.length_cons] at hbud; omega
      obtain ⟨rl, hlast, heq⟩ := ih rest (e + 1) r.status
        (fun x hx => herr x (List.mem_cons_of_mem _ hx)) (by simp)
        (by simp only [List.length_cons] at hbud ⊢; omega)
      refine ⟨rl, ?_, ?_⟩
      · rw [List.getLast?_cons_cons]; exact hlast
      · rw [List.cons_append, url_get_loop_cons_next mr mc e s 0 r _ none hmc
          (e + 1) r.status 0 none (url_step_err mr mc r e 0 none hr hnr)]
        exact heq

/-- C1: with `max_retry = R` on a freshly constructed client, a run of
consecutive non-success responses is tolerated as long as it has at most R
responses — each one increments the session error counter, waits the fixed
inter-retry delay, and re-issues the same request, leaving `nb_chunks` and
the accumulator untouched — and a run of R+1 non-success responses makes
the loop raise `HTTPError` carrying the last response's status. -/
theorem claim_C1 {α : Type} (mr mc : ℕ) (errs rest : List (Response α)) (hmc : 0 < mc)
    (herr : ∀ r ∈ errs, r.status ≠ 200) :
    (errs.length ≤ mr →
      url_get mr mc (errs ++ rest) =
        url_get_loop mr mc rest errs.length (lastStatus 0 errs) 0 none)
    ∧ (errs.length = mr + 1 →
      ∃ rl, errs.getLast? = some rl ∧
        url_get mr mc (errs ++ rest) = .httpError (mr + 1) rl.status) := by
  constructor
  · intro hle
    have := url_get_loop_errors mr mc hmc errs rest 0 0 herr (by omega)
    simpa [url_get] using this
  · intro heq
    have hne : errs ≠ [] := by
      intro h; rw [h] at heq; simp at heq
    have := url_get_loop_errors_raise mr mc hmc errs rest 0 0 herr hne (by omega)
    simpa [url_get] using this

/-- Witness for C1: with `max_retry = 2`, the third consecutive error
response (status 500 last) raises `HTTPError` with counter 3 and
status 500. -/
theorem claim_C1_witness :
    url_get 2 5 [(⟨503, none, false⟩ : Response ℕ), ⟨503, none, false⟩,
      ⟨500, none, false⟩] = .httpError 3 500 := by
  obtain ⟨rl, hl, he⟩ := (claim_C1 2 5
    [(⟨503, none, false⟩ : Response ℕ), ⟨503, none, false⟩, ⟨500, none, false⟩] []
    (by decide) (by decide)).2 rfl
  have h2 := hl
  simp at h2
  rw [← h2] at he
  simpa using he

/-! ## C2 — pagination ceiling of `_url_get` -/

/-- A trace in which the provider answers every request with a successful
raw-list chunk and signals chunked continuation with a pagination key. -/
def alwaysChunked {α : Type} (tr : List (Response α)) : Prop :=
  ∀ r ∈ tr, r.status = 200 ∧ r.cont = true ∧ ∃ l, r.chunk = some (Chunk.raw l)

theorem url_get_loop_chunked_full {α : Type} (mr mc : ℕ) :
    ∀ (tr : List (Response α)) (as : List α) (e nb : ℕ),
      alwaysChunked tr → nb + tr.length = mc → nb ≠ 0 →
      url_get_loop mr mc tr e 200 nb (some (.raw as)) = .maxChunksError e 200 := by
  intro tr
  induction tr with
  | nil =>
    intro as e nb _ hlen _
    rw [url_get_loop_nil]
    simp at hlen
    simp [hlen]
  | cons r rest ih =>
    intro as e nb htr hlen hnb0
    obtain ⟨hst, hcont, l, hch⟩ := htr r (List.mem_cons_self _ _)
    have hnb : nb < mc := by simp only [List.length_cons] at hlen; omega
    have hmerge : seedOrMerge nb (some (Chunk.raw as)) (Chunk.raw l) =
        some (.raw (as ++ l)) := by
      simp [seedOrMerge, hnb0, mergeChunk]
    rw [url_get_loop_cons_next mr mc e 200 nb r rest (some (.raw as)) hnb
      e r.status (nb + 1) (some (.raw (as ++ l)))
      (by rw [url_step_ok mr mc r e nb _ (Chunk.raw l) hst hch]
          exact chunk_step_cont mc r e nb _ (Chunk.raw l) _ hcont hmerge), hst]
    exact ih (as ++ l) e (nb + 1) (fun x hx => htr x (List.mem_cons_of_mem _ hx))
      (by simp only [List.length_cons] at hlen; omega) (by omega)

theorem url_get_loop_chunked_partial {α : Type} (mr mc : ℕ) :
    ∀ (tr : List (Response α)) (as : List α) (e nb : ℕ),
      alwaysChunked tr → nb + tr.length < mc → nb ≠ 0 →
      url_get_loop mr mc tr e 200 nb (some (.raw as)) = .noResponse := by
  intro tr
  induction tr with
  | nil =>
    intro as e nb _ hlen _
    rw [url_get_loop_nil]
    simp at hlen
    simp [hlen]
  | cons r rest ih =>
    intro as e nb htr hlen hnb0
    obtain ⟨hst, hcont, l, hch⟩ := htr r (List.mem_cons_self _ _)
    have hnb : nb < mc := by simp only [List.length_cons] at hlen; omega
    have hmerge : seedOrMerge nb (some (Chunk.raw as)) (Chunk.raw l) =
        some (.raw (as ++ l)) := by
      simp [seedOrMerge, hnb0, mergeChunk]
    rw [url_get_loop_cons_next mr mc e 200 nb r rest (some (.raw as)) hnb
      e r.status (nb + 1) (some (.raw (as ++ l)))
      (by rw [url_step_ok mr mc r e nb _ (Chunk.raw l) hst hch]
          exact chunk_step_cont mc r e nb _ (Chunk.raw l) _ hcont hmerge), hst]
    exact ih (as ++ l) e (nb + 1) (fun x hx => htr x (List.mem_cons_of_mem _ hx))
      (by simp only [List.length_cons] at hlen; omega) (by omega)

/-- C2: when the provider signals chunked continuation with a pagination
key on every successful response, the fetch loop raises `MaxChunksError`
exactly when the chunk count reaches `max_chunks`: a trace of exactly
`max_chunks` such responses is consumed entirely and raises, while any
shorter trace is consumed without raising (the loop still asks for more
chunks), so the error never fires an iteration early — and never fires
late, as the raising run issues no request beyond the `max_chunks`-th. -/
theorem claim_C2 {α : Type} (mr mc : ℕ) (trace : List (Response α)) (hmc : 0 < mc)
    (htr : alwaysChunked trace) :
    (trace.length = mc → url_get mr mc trace = .maxChunksError 0 200)
    ∧ (trace.length < mc → url_get mr mc trace = .noResponse) := by
  constructor
  · intro hlen
    match trace with
    | [] => rw [← hlen] at hmc; simp at hmc
    | r :: rest =>
      obtain ⟨hst, hcont, l, hch⟩ := htr r (List.mem_cons_self _ _)
      have hmerge : seedOrMerge 0 (none : Option (Chunk α)) (Chunk.raw l) =
          some (.raw l) := by simp [seedOrMerge]
      rw [url_get, url_get_loop_cons_next mr mc 0 0 0 r rest none hmc
        0 r.status 1 (some (.raw l))
        (by rw [url_step_ok mr mc r 0 0 none (Chunk.raw l) hst hch]
            exact chunk_step_cont mc r 0 0 none (Chunk.raw l) _ hcont hmerge), hst]
      exact url_get_loop_chunked_full mr mc rest l 0 1
        (fun x hx => htr x (List.mem_cons_of_mem _ hx))
        (by simp only [List.length_cons] at hlen; omega) one_ne_zero
  · intro hlen
    match trace with
    | [] => rw [url_get, url_get_loop_nil]; simp [hmc]
    | r :: rest =>
      obtain ⟨hst, hcont, l, hch⟩ := htr r (List.mem_cons_self _ _)
      have hmerge : seedOrMerge 0 (none : Option (Chunk α)) (Chunk.raw l) =
          some (.raw l) := by simp [seedOrMerge]
      rw [url_get, url_get_loop_cons_next mr mc 0 0 0 r rest none hmc
        0 r.status 1 (some (.raw l))
        (by rw [url_step_ok mr mc r 0 0 none (Chunk.raw l) hst hch]
            exact chunk_step_cont mc r 0 0 none (Chunk.raw l) _ hcont hmerge), hst]
      exact url_get_loop_chunked_partial mr mc rest l 0 1
        (fun x hx => htr x (List.mem_cons_of_mem _ hx))
        (by simp only [List.length_cons] at hlen; omega) one_ne_zero

/-- Witness for C2: with `max_chunks = 2`, two successful always-continuing
chunks raise `MaxChunksError`. -/
theorem claim_C2_witness :
    url_get 5 2 [(⟨200, some (Chunk.raw [7]), true⟩ : Response ℕ),
      ⟨200, some (Chunk.raw [8]), true⟩] = .maxChunksError 0 200 :=
  (claim_C2 5 2 [⟨200, some (Chunk.raw [7]), true⟩, ⟨200, some (Chunk.raw [8]), true⟩]
    (by decide)
    (by intro r hr
        simp only [List.mem_cons, List.mem_singleton] at hr
        rcases hr with rfl | rfl | h
        · exact ⟨rfl, rfl, [7], rfl⟩
        · exact ⟨rfl, rfl, [8], rfl⟩
        · simp at h)).1 rfl

/-! ## C3 — chunk merging of `_url_get` -/

theorem url_get_loop_success {α : Type} (mr mc : ℕ) :
    ∀ (cs : List (Chunk α)) (a : Chunk α) (e nb : ℕ) (d : Chunk α),
      cs ≠ [] → nb ≠ 0 → nb + cs.length ≤ mc → List.foldlM mergeChunk a cs = some d →
      url_get_loop mr mc (successTrace cs) e 200 nb (some a) = .ok e 200 d := by
  intro cs
  induction cs with
  | nil => intro a e nb d hne _ _ _; exact absurd rfl hne
  | cons c cs ih =>
    intro a e nb d _ hnb0 hlen hfold
    have hnb : nb < mc := by simp only [List.length_cons] at hlen; omega
    rw [List.foldlM_cons] at hfold
    cases hm : mergeChunk a c with
    | none => rw [hm] at hfold; simp at hfold
    | some a1 =>
      rw [hm] at hfold
      simp only [Option.bind_eq_bind, Option.some_bind] at hfold
      have hmerge : seedOrMerge nb (some a) c = some a1 := by
        simp [seedOrMerge, hnb0, hm]
      match cs with
      | [] =>
        simp only [List.foldlM_nil, Option.pure_def, Option.some.injEq] at hfold
        subst hfold
        exact url_get_loop_cons_done mr mc e 200 nb ⟨200, some c, false⟩ [] (some a) hnb
          (.ok e 200 a1)
          (by rw [url_step_ok mr mc _ e nb _ c rfl rfl]
              exact chunk_step_break mc _ e nb _ c a1 rfl hnb hmerge)
      | c2 :: cs2 =>
        have hstep : url_step mr mc (⟨200, some c, true⟩ : Response α) e nb (some a) =
            .next e 200 (nb + 1) (some a1) := by
          rw [url_step_ok mr mc _ e nb _ c rfl rfl]
          exact chunk_step_cont mc _ e nb _ c a1 rfl hmerge
        rw [show successTrace (c :: c2 :: cs2) =
            (⟨200, some c, true⟩ : Response α) :: successTrace (c2 :: cs2) from rfl]
        rw [url_get_loop_cons_next mr mc e 200 nb _ _ (some a) hnb e 200 (nb + 1)
          (some a1) hstep]
        exact ih a1 e (nb + 1) d (by simp) (by omega)
          (by simp only [List.length_cons] at hlen ⊢; omega) hfold

theorem url_get_success {α : Type} (mr mc : ℕ) (c : Chunk α) (cs : List (Chunk α))
    (d : Chunk α) (hlen : cs.length < mc) (hfold : List.foldlM mergeChunk c cs = some d) :
    url_get mr mc (successTrace (c :: cs)) = .ok 0 200 d := by
  have hmc : 0 < mc := by omega
  have hseed : seedOrMerge 0 (none : Option (Chunk α)) c = some c := by simp [seedOrMerge]
  match cs with
  | [] =>
    simp only [List.foldlM_nil, Option.pure_def, Option.some.injEq] at hfold
    subst hfold
    exact url_get_loop_cons_done mr mc 0 0 0 ⟨200, some c, false⟩ [] none hmc
      (.ok 0 200 c)
      (by rw [url_step_ok mr mc _ 0 0 none c rfl rfl]
          exact chunk_step_break mc _ 0 0 none c c rfl hmc hseed)
  | c2 :: cs2 =>
    have hstep : url_step mr mc (⟨200, some c, true⟩ : Response α) 0 0 none =
        .next 0 200 1 (some c) := by
      rw [url_step_ok mr mc _ 0 0 none c rfl rfl]
      exact chunk_step_cont mc _ 0 0 none c c rfl hseed
    rw [url_get, show successTrace (c :: c2 :: cs2) =
        (⟨200, some c, true⟩ : Response α) :: successTrace (c2 :: cs2) from rfl]
    rw [url_get_loop_cons_next mr mc 0 0 0 _ _ none hmc 0 200 1 (some c) hstep]
    exact url_get_loop_success mr mc (c2 :: cs2) c 0 1 d (by simp) one_ne_zero
      (by simp only [List.length_cons] at hlen ⊢; omega) hfold

/-- C3: a multi-chunk fetch builds its logical response by letting the
first chunk seed the accumulator and folding each subsequent chunk into it
with the same-named-list merge, in arrival order; in particular three
`sightings` chunks `[a]`, `[b]`, `[c]` with continuation signalled between
each yield the single list `[a, b, c]`, and a fetch terminating after one
chunk returns that chunk's decoded content unchanged. -/
theorem claim_C3 (mr mc : ℕ) :
    (∀ (α : Type) (c : Chunk α) (cs : List (Chunk α)) (d : Chunk α),
      cs.length < mc → List.foldlM mergeChunk c cs = some d →
      url_get mr mc (successTrace (c :: cs)) = .ok 0 200 d)
    ∧ (∀ (α : Type) (a b c : α), 2 < mc →
      url_get mr mc (successTrace [Chunk.dataObs (some [a]) none,
        Chunk.dataObs (some [b]) none, Chunk.dataObs (some [c]) none]) =
        .ok 0 200 (Chunk.dataObs (some [a, b, c]) none))
    ∧ (∀ (α : Type) (c : Chunk α), 0 < mc →
      url_get mr mc (successTrace [c]) = .ok 0 200 c) := by
  refine ⟨fun α c cs d hlen hfold => url_get_success mr mc c cs d hlen hfold, ?_, ?_⟩
  · intro α a b c hmc
    exact url_get_success mr mc (Chunk.dataObs (some [a]) none)
      [Chunk.dataObs (some [b]) none, Chunk.dataObs (some [c]) none]
      (Chunk.dataObs (some [a, b, c]) none) (by simpa using hmc) rfl
  · intro α c hmc
    exact url_get_success mr mc c [] c (by simpa using hmc) rfl

/-- Witness for C3: three one-sighting chunks merge into one three-element
sightings list. -/
theorem claim_C3_witness :
    url_get 5 10 (successTrace [Chunk.dataObs (some [1]) none,
      Chunk.dataObs (some [2]) none, Chunk.dataObs (some [3]) none]) =
      .ok 0 200 (Chunk.dataObs (some [(1 : ℕ), 2, 3]) none) :=
  (claim_C3 5 10).2.1 ℕ 1 2 3 (by decide)

/-! ## C10 — credential masking -/

theorem dictGet_dictSet_self (l : List (String × String)) (k v : String) :
    dictGet (dictSet l k v) k = some v := by
  induction l with
  | nil => simp [dictSet, dictGet]
  | cons p rest ih =>
    by_cases hp : p.1 = k
    · simp [dictSet, dictGet, hp]
    · simp [dictSet, dictGet, hp, ih]

theorem dictGet_dictSet_other (l : List (String × String)) (k v k2 : String)
    (h : k2 ≠ k) :
    dictGet (dictSet l k v) k2 = dictGet l k2 := by
  have hsymm : k ≠ k2 := Ne.symm h
  induction l with
  | nil => simp [dictSet, dictGet, hsymm]
  | cons p rest ih =>
    by_cases hp : p.1 = k
    · by_cases hp2 : p.1 = k2
      · exact absurd (hp2.symm.trans hp) h
      · simp [dictSet, dictGet, hp, hp2, hsymm]
    · simp only [dictSet, if_neg hp]
      by_cases hp2 : p.1 = k2
      · simp [dictGet, hp2]
      · simp [dictGet, hp2, ih]

/-- C10: the parameter-cleaning step returns a mapping in which the
`user_email` and `user_pw` entries hold the mask and every other key reads
exactly as in the input mapping; the input itself is a pure value the step
never alters (the source achieves this by copying before assigning), so
the request built from the original parameters still carries the
credentials while the log sees only the mask. -/
theorem claim_C10 (params : List (String × String)) :
    dictGet (clean_params params) emailKey = some maskValue
    ∧ dictGet (clean_params params) pwKey = some maskValue
    ∧ ∀ k, k ≠ emailKey → k ≠ pwKey →
        dictGet (clean_params params) k = dictGet params k := by
  refine ⟨?_, ?_, ?_⟩
  · rw [clean_params, dictGet_dictSet_other _ _ _ _ (by decide),
      dictGet_dictSet_self]
  · rw [clean_params, dictGet_dictSet_self]
  · intro k hke hkp
    rw [clean_params, dictGet_dictSet_other _ _ _ _ hkp,
      dictGet_dictSet_other _ _ _ _ hke]

/-- Witness for C10: on a two-entry parameter dict, the email entry is
masked and the non-credential entry is untouched. -/
theorem claim_C10_witness :
    dictGet (clean_params [(emailKey, "someone@example.org"), ("id_taxo_group", "18")])
        "id_taxo_group" = some "18"
    ∧ dictGet (clean_params [(emailKey, "someone@example.org"), ("id_taxo_group", "18")])
        emailKey = some maskValue := by
  constructor
  · exact ((claim_C10 [(emailKey, "someone@example.org"), ("id_taxo_group", "18")]).2.2
      "id_taxo_group" (by decide) (by decide)).trans rfl
  · exact (claim_C10 [(emailKey, "someone@example.org"), ("id_taxo_group", "18")]).1

/-! ## C4 — diff classification of `Observations.update` -/

theorem classify_ok (items : List DiffItem)
    (hall : ∀ it ∈ items, it.modification_type = updatedTag ∨
      it.modification_type = deletedTag) :
    ∀ upd del, classify items upd del =
      .ok (upd ++ updatedIds items, del ++ deletedIds items) := by
  induction items with
  | nil => intro upd del; simp [classify, updatedIds, deletedIds]
  | cons it rest ih =>
    intro upd del
    have hrest : ∀ x ∈ rest, x.modification_type = updatedTag ∨
        x.modification_type = deletedTag :=
      fun x hx => hall x (List.mem_cons_of_mem _ hx)
    rcases hall it (List.mem_cons_self _ _) with hupd | hdel
    · have hnd : ¬ (it.modification_type = deletedTag) := by
        rw [hupd]; decide
      rw [classify, if_pos hupd, ih hrest]
      have htag : ¬ (updatedTag = deletedTag) := by decide
      simp [updatedIds, deletedIds, List.filter_cons, hupd, hnd, htag]
    · by_cases hud : it.modification_type = updatedTag
      · rw [classify, if_pos hud, ih hrest]
        have hnd : ¬ (it.modification_type = deletedTag) := by
          rw [hud]; decide
        exact absurd hdel hnd
      · rw [classify, if_neg hud, if_pos hdel, ih hrest]
        have htag : ¬ (deletedTag = updatedTag) := by decide
        simp [updatedIds, deletedIds, List.filter_cons, hud, hdel, htag]

theorem classify_err (items : List DiffItem)
    (hbad : ∃ it ∈ items, ¬ (it.modification_type = updatedTag ∨
      it.modification_type = deletedTag)) :
    ∀ upd del, ∃ err, classify items upd del = .error err := by
  induction items with
  | nil => obtain ⟨it, hit, _⟩ := hbad; simp at hit
  | cons it rest ih =>
    intro upd del
    by_cases hud : it.modification_type = updatedTag
    · obtain ⟨x, hx, hxbad⟩ := hbad
      rcases List.mem_cons.mp hx with rfl | hxr
      · exact absurd (Or.inl hud) hxbad
      · rw [classify, if_pos hud]
        exact ih ⟨x, hxr, hxbad⟩ _ _
    · by_cases hdd : it.modification_type = deletedTag
      · obtain ⟨x, hx, hxbad⟩ := hbad
        rcases List.mem_cons.mp hx with rfl | hxr
        · exact absurd (Or.inr hdd) hxbad
        · rw [classify, if_neg hud, if_pos hdd]
          exact ih ⟨x, hxr, hxbad⟩ _ _
      · refine ⟨⟨it.id_universal, it.modification_type⟩, ?_⟩
        rw [classify, if_neg hud, if_neg hdd]

/-- C4: during incremental sync, a diff response whose items all carry the
`updated` or `deleted` marker yields exactly the operations of the source:
one individual re-fetch and upsert per updated id in arrival order,
followed by a single batch delete of the deleted ids when any exist; a
diff response containing any item with another marker raises the
unknown-modification-type error instead, so no operation from that
response is issued. -/
theorem claim_C4 (items : List DiffItem) :
    ((∀ it ∈ items, it.modification_type = updatedTag ∨
        it.modification_type = deletedTag) →
      update_ops items = .ok
        (((updatedIds items).flatMap fun i => [SyncOp.apiGet i, SyncOp.store i]) ++
          (if 0 < (deletedIds items).length then [SyncOp.deleteObs (deletedIds items)]
           else [])))
    ∧ ((∃ it ∈ items, ¬ (it.modification_type = updatedTag ∨
        it.modification_type = deletedTag)) →
      ∃ err, update_ops items = .error err) := by
  constructor
  · intro hall
    rw [update_ops, classify_ok items hall [] []]
    simp
  · intro hbad
    obtain ⟨err, herr⟩ := classify_err items hbad [] []
    exact ⟨err, by rw [update_ops, herr]⟩

/-- Witness for C4: one updated and one deleted item produce a re-fetch
and store of the updated id followed by the batch delete of the deleted
id. -/
theorem claim_C4_witness :
    update_ops [⟨101, 1001, updatedTag⟩, ⟨102, 1002, deletedTag⟩] =
      .ok [SyncOp.apiGet 101, SyncOp.store 101, SyncOp.deleteObs [102]] :=
  ((claim_C4 [⟨101, 1001, updatedTag⟩, ⟨102, 1002, deletedTag⟩]).1
    (by decide)).trans (by rfl)

/-! ## Table lemmas for the (id, site) keyed stores -/

theorem keyMatch_self {β : Type} (i : ℕ) (s : String) (p : β) :
    keyMatch i s (⟨i, s, p⟩ : Row β) = true := by
  simp [keyMatch]

theorem tableFind_eq_none {β : Type} (t : List (Row β)) (i : ℕ) (s : String)
    (h : keyCount t i s = 0) : tableFind t i s = none := by
  rw [tableFind, List.find?_eq_none]
  intro x hx
  simpa using List.countP_eq_zero.mp h x hx

theorem tableFind_insert {β : Type} (t : List (Row β)) (i : ℕ) (s : String) (p : β)
    (h : tableFind t i s = none) :
    tableFind (t ++ [⟨i, s, p⟩]) i s = some ⟨i, s, p⟩ := by
  induction t with
  | nil =>
    rw [List.nil_append, tableFind, List.find?_cons_of_pos _ (keyMatch_self i s p)]
  | cons a rest ih =>
    have hk : ¬ (keyMatch i s a = true) := by
      intro hk
      rw [tableFind, List.find?_cons_of_pos _ hk] at h
      simp at h
    rw [tableFind, List.find?_cons_of_neg _ hk] at h
    rw [tableFind, List.cons_append, List.find?_cons_of_neg _ hk]
    exact ih h

theorem keyCount_insert {β : Type} (t : List (Row β)) (i : ℕ) (s : String) (p : β) :
    keyCount (t ++ [⟨i, s, p⟩]) i s = keyCount t i s + 1 := by
  simp [keyCount, List.countP_append, List.countP_cons, keyMatch_self]

theorem keyCount_update {β : Type} (t : List (Row β)) (i : ℕ) (s : String) (p : β) :
    keyCount (tableUpdate t i s p) i s = keyCount t i s := by
  induction t with
  | nil => rfl
  | cons a rest ih =>
    rw [tableUpdate, List.map_cons]
    cases hk : keyMatch i s a with
    | true =>
      simp only [hk, if_true, keyCount, List.countP_cons, keyMatch_self]
      rw [← keyCount, ← keyCount, ← tableUpdate, ih]
    | false =>
      simp only [hk, if_false, Bool.false_eq_true, keyCount, List.countP_cons]
      rw [← keyCount, ← keyCount, ← tableUpdate, ih]

theorem tableFind_update {β : Type} (t : List (Row β)) (i : ℕ) (s : String) (p : β)
    (r : Row β) (h : tableFind t i s = some r) :
    tableFind (tableUpdate t i s p) i s = some ⟨i, s, p⟩ := by
  induction t with
  | nil => simp [tableFind] at h
  | cons a rest ih =>
    cases hk : keyMatch i s a with
    | true =>
      rw [tableUpdate, List.map_cons, if_pos hk, tableFind,
        List.find?_cons_of_pos _ (keyMatch_self i s p)]
    | false =>
      have hkne : ¬ (keyMatch i s a = true) := by simp [hk]
      rw [tableFind, List.find?_cons_of_neg _ hkne] at h
      rw [tableUpdate, List.map_cons, if_neg hkne, tableFind,
        List.find?_cons_of_neg _ hkne]
      exact ih h

theorem tableUpdate_length {β : Type} (t : List (Row β)) (i : ℕ) (s : String) (p : β) :
    (tableUpdate t i s p).length = t.length := by
  simp [tableUpdate]

/-! ## C5 — upsert by (id, site) for every controller type -/

/-- C5: storing the same record twice under one (id, site) key leaves
exactly one row for that key on every storage path: the first store
inserts the row, the second finds it and updates it in place — new
serialized record, and for the observation path the new resolved update
timestamp — without adding a row.  The three conjuncts cover
`_store_simple` (the simple controllers, and the geometry controllers
which reproject and then delegate to it), `_store_form`, and
`store_1_observation`. -/
theorem claim_C5 (site : String) (i : ℕ) :
    (∀ (t : List (Row String)) (v1 v2 : String), keyCount t i site = 0 →
      keyCount (store_simple site t [⟨i, v1⟩]).1 i site = 1
      ∧ tableFind (store_simple site t [⟨i, v1⟩]).1 i site = some ⟨i, site, v1⟩
      ∧ keyCount (store_simple site (store_simple site t [⟨i, v1⟩]).1 [⟨i, v2⟩]).1 i site = 1
      ∧ tableFind (store_simple site (store_simple site t [⟨i, v1⟩]).1 [⟨i, v2⟩]).1 i site =
          some ⟨i, site, v2⟩
      ∧ (store_simple site (store_simple site t [⟨i, v1⟩]).1 [⟨i, v2⟩]).1.length =
          (store_simple site t [⟨i, v1⟩]).1.length)
    ∧ (∀ (t : List (Row String)) (v1 v2 : String), keyCount t i site = 0 →
      keyCount (store_form site t ⟨i, v1⟩) i site = 1
      ∧ tableFind (store_form site t ⟨i, v1⟩) i site = some ⟨i, site, v1⟩
      ∧ keyCount (store_form site (store_form site t ⟨i, v1⟩) ⟨i, v2⟩) i site = 1
      ∧ tableFind (store_form site (store_form site t ⟨i, v1⟩) ⟨i, v2⟩) i site =
          some ⟨i, site, v2⟩
      ∧ (store_form site (store_form site t ⟨i, v1⟩) ⟨i, v2⟩).length =
          (store_form site t ⟨i, v1⟩).length)
    ∧ (∀ (t : List (Row (String × ℕ))) (e1 e2 : ObsElem),
        e1.id_sighting = i → e2.id_sighting = i → keyCount t i site = 0 →
      keyCount (store_1_observation site t e1) i site = 1
      ∧ tableFind (store_1_observation site t e1) i site =
          some ⟨i, site, (e1.body, obs_update_ts e1)⟩
      ∧ keyCount (store_1_observation site (store_1_observation site t e1) e2) i site = 1
      ∧ tableFind (store_1_observation site (store_1_observation site t e1) e2) i site =
          some ⟨i, site, (e2.body, obs_update_ts e2)⟩
      ∧ (store_1_observation site (store_1_observation site t e1) e2).length =
          (store_1_observation site t e1).length) := by
  refine ⟨?_, ?_, ?_⟩
  · intro t v1 v2 h0
    have hf0 : tableFind t i site = none := tableFind_eq_none t i site h0
    have h1 : (store_simple site t [⟨i, v1⟩]).1 = t ++ [⟨i, site, v1⟩] := by
      simp [store_simple, store_simple_elem, hf0]
    have hc1 : keyCount (t ++ [⟨i, site, v1⟩]) i site = 1 := by
      rw [keyCount_insert, h0]
    have hfind1 : tableFind (t ++ [⟨i, site, v1⟩]) i site = some ⟨i, site, v1⟩ :=
      tableFind_insert t i site v1 hf0
    have h2 : (store_simple site (t ++ [⟨i, site, v1⟩]) [⟨i, v2⟩]).1 =
        tableUpdate (t ++ [⟨i, site, v1⟩]) i site v2 := by
      simp [store_simple, store_simple_elem, hfind1]
    refine ⟨by rw [h1]; exact hc1, by rw [h1]; exact hfind1, ?_, ?_, ?_⟩
    · rw [h1, h2, keyCount_update]; exact hc1
    · rw [h1, h2]; exact tableFind_update _ i site v2 _ hfind1
    · rw [h1, h2, tableUpdate_length]
  · intro t v1 v2 h0
    have hf0 : tableFind t i site = none := tableFind_eq_none t i site h0
    have h1 : store_form site t ⟨i, v1⟩ = t ++ [⟨i, site, v1⟩] := by
      simp [store_form, hf0]
    have hc1 : keyCount (t ++ [⟨i, site, v1⟩]) i site = 1 := by
      rw [keyCount_insert, h0]
    have hfind1 : tableFind (t ++ [⟨i, site, v1⟩]) i site = some ⟨i, site, v1⟩ :=
      tableFind_insert t i site v1 hf0
    have h2 : store_form site (t ++ [⟨i, site, v1⟩]) ⟨i, v2⟩ =
        tableUpdate (t ++ [⟨i, site, v1⟩]) i site v2 := by
      simp [store_form, hfind1]
    refine ⟨by rw [h1]; exact hc1, by rw [h1]; exact hfind1, ?_, ?_, ?_⟩
    · rw [h1, h2, keyCount_update]; exact hc1
    · rw [h1, h2]; exact tableFind_update _ i site v2 _ hfind1
    · rw [h1, h2, tableUpdate_length]
  · intro t e1 e2 he1 he2 h0
    have hf0 : tableFind t i site = none := tableFind_eq_none t i site h0
    have h1 : store_1_observation site t e1 = t ++ [⟨i, site, (e1.body, obs_update_ts e1)⟩] := by
      rw [store_1_observation, he1, hf0]
    have hc1 : keyCount (t ++ [⟨i, site, (e1.body, obs_update_ts e1)⟩]) i site = 1 := by
      rw [keyCount_insert, h0]
    have hfind1 : tableFind (t ++ [⟨i, site, (e1.body, obs_update_ts e1)⟩]) i site =
        some ⟨i, site, (e1.body, obs_update_ts e1)⟩ :=
      tableFind_insert t i site _ hf0
    have h2 : store_1_observation site (t ++ [⟨i, site, (e1.body, obs_update_ts e1)⟩]) e2 =
        tableUpdate (t ++ [⟨i, site, (e1.body, obs_update_ts e1)⟩]) i site
          (e2.body, obs_update_ts e2) := by
      rw [store_1_observation, he2, hfind1]
    refine ⟨by rw [h1]; exact hc1, by rw [h1]; exact hfind1, ?_, ?_, ?_⟩
    · rw [h1, h2, keyCount_update]; exact hc1
    · rw [h1, h2]; exact tableFind_update _ i site _ _ hfind1
    · rw [h1, h2, tableUpdate_length]

/-- Witness for C5: storing the element with id 3 twice on an empty table
leaves one row holding the second serialization. -/
theorem claim_C5_witness :
    keyCount (store_simple "vn01" (store_simple "vn01" [] [⟨3, "first"⟩]).1
      [⟨3, "second"⟩]).1 3 "vn01" = 1
    ∧ tableFind (store_simple "vn01" (store_simple "vn01" [] [⟨3, "first"⟩]).1
      [⟨3, "second"⟩]).1 3 "vn01" = some ⟨3, "vn01", "second"⟩ := by
  obtain ⟨_, _, hc, hf, _⟩ := (claim_C5 "vn01" 3).1 [] "first" "second" rfl
  exact ⟨hc, hf⟩

/-! ## C6 — idempotent creation of the UUID cross-reference -/

/-- C6: calling `_store_uuid` twice for the same (id, site) creates the
identity row exactly once: the first call inserts a row holding the
universal id, the fresh uuid and the assignment timestamp; the second call
finds that row and returns the table unchanged — even with a different
candidate uuid and clock — so the stored uuid is identical across the two
calls. -/
theorem claim_C6 (t : List (Row UuidData)) (site : String) (i u1 u2 f1 n1 f2 n2 : ℕ)
    (h0 : keyCount t i site = 0) :
    store_uuid site t i u1 f1 n1 = t ++ [⟨i, site, ⟨u1, f1, n1⟩⟩]
    ∧ keyCount (store_uuid site t i u1 f1 n1) i site = 1
    ∧ store_uuid site (store_uuid site t i u1 f1 n1) i u2 f2 n2 =
        store_uuid site t i u1 f1 n1
    ∧ tableFind (store_uuid site (store_uuid site t i u1 f1 n1) i u2 f2 n2) i site =
        some ⟨i, site, ⟨u1, f1, n1⟩⟩ := by
  have hf0 : tableFind t i site = none := tableFind_eq_none t i site h0
  have h1 : store_uuid site t i u1 f1 n1 = t ++ [⟨i, site, ⟨u1, f1, n1⟩⟩] := by
    rw [store_uuid, hf0]
  have hfind1 : tableFind (t ++ [⟨i, site, ⟨u1, f1, n1⟩⟩]) i site =
      some ⟨i, site, ⟨u1, f1, n1⟩⟩ :=
    tableFind_insert t i site _ hf0
  have h2 : store_uuid site (t ++ [⟨i, site, ⟨u1, f1, n1⟩⟩]) i u2 f2 n2 =
      t ++ [⟨i, site, ⟨u1, f1, n1⟩⟩] := by
    rw [store_uuid, hfind1]
  refine ⟨h1, ?_, ?_, ?_⟩
  · rw [h1, keyCount_insert, h0]
  · rw [h1, h2]
  · rw [h1, h2]; exact hfind1

/-- Witness for C6: the second `_store_uuid` call with a different
candidate uuid leaves the first call's row unchanged. -/
theorem claim_C6_witness :
    store_uuid "vn01" (store_uuid "vn01" [] 7 70 901 1000 ) 7 70 902 2000 =
      store_uuid "vn01" [] 7 70 901 1000
    ∧ tableFind (store_uuid "vn01" (store_uuid "vn01" [] 7 70 901 1000 ) 7 70 902 2000)
        7 "vn01" = some ⟨7, "vn01", ⟨70, 901, 1000⟩⟩ := by
  obtain ⟨_, _, hs, hf⟩ := claim_C6 [] "vn01" 7 70 70 901 1000 902 2000 rfl
  exact ⟨hs, hf⟩

/-! ## C7 — ordering of uuid creation and enqueueing in `_store_observation` -/

theorem topSightingEvents_before (l : List Sighting) :
    ∀ (tail : List StoreEvent) (e : Sighting), e ∈ l →
      ∃ i j : ℕ, i < j ∧
        (topSightingEvents l ++ tail)[i]? = some (StoreEvent.uuidCreated e.id_sighting) ∧
        (topSightingEvents l ++ tail)[j]? = some (StoreEvent.enqueued e.id_sighting) := by
  induction l with
  | nil => intro tail e he; simp at he
  | cons x rest ih =>
    intro tail e he
    rw [show topSightingEvents (x :: rest) ++ tail =
      StoreEvent.uuidCreated x.id_sighting :: StoreEvent.enqueued x.id_sighting ::
        (topSightingEvents rest ++ tail) from rfl]
    rcases List.mem_cons.mp he with rfl | her
    · refine ⟨0, 1, by omega, ?_, ?_⟩
      · rw [List.getElem?_cons_zero]
      · rw [List.getElem?_cons_succ, List.getElem?_cons_zero]
    · obtain ⟨i, j, hij, hi, hj⟩ := ih tail e her
      refine ⟨i + 2, j + 2, by omega, ?_, ?_⟩
      · rw [List.getElem?_cons_succ, List.getElem?_cons_succ]; exact hi
      · rw [List.getElem?_cons_succ, List.getElem?_cons_succ]; exact hj

theorem uuid_not_in_formEvents (fs : List FormInput) (k : ℕ) :
    StoreEvent.uuidCreated k ∉ formEvents fs := by
  induction fs with
  | nil => intro h; simp [formEvents] at h
  | cons f rest ih =>
    intro h
    rw [formEvents] at h
    rcases List.mem_append.mp h with h1 | h2
    · obtain ⟨s2, _, hs⟩ := List.mem_map.mp h1
      simp at hs
    · rcases List.mem_cons.mp h2 with h3 | h4
      · simp at h3
      · exact ih h4

theorem uuid_in_top (l : List Sighting) (k : ℕ)
    (h : StoreEvent.uuidCreated k ∈ topSightingEvents l) :
    ∃ e ∈ l, e.id_sighting = k := by
  induction l with
  | nil => simp [topSightingEvents] at h
  | cons x rest ih =>
    rw [topSightingEvents] at h
    rcases List.mem_cons.mp h with h1 | h2
    · exact ⟨x, List.mem_cons_self _ _, by injection h1.symm⟩
    · rcases List.mem_cons.mp h2 with h3 | h4
      · simp at h3
      · obtain ⟨e, he, hk⟩ := ih h4
        exact ⟨e, List.mem_cons_of_mem _ he, hk⟩

/-- C7 counterexample: a logical response with no top-level sighting and
one form embedding the sighting 42 enqueues that sighting's write task
with no `_store_uuid` call at all — its event trace is
`[enqueued 42, formStored 7]` — so the claimed uuid-before-enqueue
ordering fails for form-embedded sightings. -/
theorem claim_C7_counterexample :
    ¬ uuidBeforeEnqueue (store_observation_events [] (some [⟨7, [⟨42, 420⟩]⟩])).1 := by
  intro h
  obtain ⟨i, hi, _⟩ := h 0 42 rfl
  exact absurd hi (Nat.not_lt_zero i)

/-- C7 (amended): within one logical response processed by
`_store_observation`, the UUID cross-reference creation for each top-level
sighting happens before that sighting's write task is enqueued; sightings
embedded inside nested forms, however, are enqueued without any UUID
cross-reference creation — uuid-creation events occur only for top-level
sightings. -/
theorem claim_C7_amended (sightings : List Sighting) (forms : Option (List FormInput)) :
    (∀ e ∈ sightings, ∃ i j : ℕ, i < j ∧
      (store_observation_events sightings forms).1[i]? =
        some (StoreEvent.uuidCreated e.id_sighting) ∧
      (store_observation_events sightings forms).1[j]? =
        some (StoreEvent.enqueued e.id_sighting))
    ∧ (∀ k : ℕ, StoreEvent.uuidCreated k ∈ (store_observation_events sightings forms).1 →
        ∃ e ∈ sightings, e.id_sighting = k) := by
  constructor
  · intro e he
    exact topSightingEvents_before sightings
      (match forms with
       | none => []
       | some fs => formEvents fs) e he
  · intro k hk
    cases forms with
    | none =>
      rw [show (store_observation_events sightings none).1 =
        topSightingEvents sightings ++ [] from rfl, List.append_nil] at hk
      exact uuid_in_top sightings k hk
    | some fs =>
      rw [show (store_observation_events sightings (some fs)).1 =
        topSightingEvents sightings ++ formEvents fs from rfl] at hk
      rcases List.mem_append.mp hk with h1 | h2
      · exact uuid_in_top sightings k h1
      · exact absurd h2 (uuid_not_in_formEvents fs k)

/-- Witness for the amended C7: for the single top-level sighting 5, the
uuid creation event precedes the enqueue event. -/
theorem claim_C7_witness :
    ∃ i j : ℕ, i < j ∧
      (store_observation_events [⟨5, 50⟩] none).1[i]? =
        some (StoreEvent.uuidCreated 5) ∧
      (store_observation_events [⟨5, 50⟩] none).1[j]? =
        some (StoreEvent.enqueued 5) :=
  (claim_C7_amended [⟨5, 50⟩] none).1 ⟨5, 50⟩ (List.mem_singleton.mpr rfl)

/-! ## C8 — behaviour of the integrating rate regulator -/

theorem pid_target (counts : ℕ → ℚ) (h : ∀ k, counts k = 10000) :
    ∀ n, pidIterate counts n = 15 := by
  intro n
  induction n with
  | zero => norm_num [pidIterate, initialDeltaDays]
  | succ n ih =>
    rw [pidIterate, h n, ih, pidStep, pidKi, pidSetpoint, pidOutMin, pidOutMax]
    norm_num

theorem pid_zero_closed (counts : ℕ → ℚ) (h : ∀ k, counts k = 0) :
    ∀ n : ℕ, pidIterate counts n = min 2000 (15 + 30 * (n:ℚ)) := by
  intro n
  induction n with
  | zero => norm_num [pidIterate, initialDeltaDays]
  | succ n ih =>
    rw [pidIterate, h n, ih, pidStep, pidKi, pidSetpoint, pidOutMin, pidOutMax]
    have hn : (0:ℚ) ≤ (n:ℚ) := Nat.cast_nonneg n
    push_cast
    simp only [max_def, min_def]
    split_ifs <;> linarith

theorem pid_zero_inc (counts : ℕ → ℚ) (h : ∀ k, counts k = 0) :
    ∀ n : ℕ, pidIterate counts n < 2000 → pidIterate counts n < pidIterate counts (n + 1) := by
  intro n hlt
  rw [pid_zero_closed counts h n] at hlt ⊢
  rw [pid_zero_closed counts h (n + 1)]
  have hn : (0:ℚ) ≤ (n:ℚ) := Nat.cast_nonneg n
  push_cast
  simp only [min_def] at hlt ⊢
  split_ifs at * <;> linarith

theorem pid_zero_clamp (counts : ℕ → ℚ) (h : ∀ k, counts k = 0) :
    ∀ n : ℕ, 67 ≤ n → pidIterate counts n = 2000 := by
  intro n h67
  rw [pid_zero_closed counts h n]
  have : (67:ℚ) ≤ (n:ℚ) := by exact_mod_cast h67
  rw [min_eq_left (by linarith)]

theorem pid_above_closed (counts : ℕ → ℚ) (c : ℚ) (hc : 10000 < c)
    (h : ∀ k, counts k = c) :
    ∀ n : ℕ, pidIterate counts n = max 10 (15 - (n:ℚ) * (3 / 1000 * (c - 10000))) := by
  have hq : (0:ℚ) < 3 / 1000 * (c - 10000) := by
    have : (0:ℚ) < c - 10000 := by linarith
    positivity
  intro n
  induction n with
  | zero => norm_num [pidIterate, initialDeltaDays]
  | succ n ih =>
    rw [pidIterate, h n, ih, pidStep, pidKi, pidSetpoint, pidOutMin, pidOutMax]
    have hn : (0:ℚ) ≤ (n:ℚ) := Nat.cast_nonneg n
    have hnd : (0:ℚ) ≤ (n:ℚ) * (3 / 1000 * (c - 10000)) := mul_nonneg hn (le_of_lt hq)
    push_cast
    simp only [max_def, min_def]
    split_ifs <;> ring_nf <;> ring_nf at hq hnd <;> linarith

theorem pid_above_dec (counts : ℕ → ℚ) (c : ℚ) (hc : 10000 < c)
    (h : ∀ k, counts k = c) :
    ∀ n : ℕ, 10 < pidIterate counts n → pidIterate counts (n + 1) < pidIterate counts n := by
  have hq : (0:ℚ) < 3 / 1000 * (c - 10000) := by
    have : (0:ℚ) < c - 10000 := by linarith
    positivity
  intro n h10
  rw [pid_above_closed counts c hc h n] at h10 ⊢
  rw [pid_above_closed counts c hc h (n + 1)]
  have hn : (0:ℚ) ≤ (n:ℚ) := Nat.cast_nonneg n
  have hnd : (0:ℚ) ≤ (n:ℚ) * (3 / 1000 * (c - 10000)) := mul_nonneg hn (le_of_lt hq)
  push_cast
  simp only [max_def] at h10 ⊢
  split_ifs at * <;> ring_nf <;> ring_nf at hq hnd <;> linarith

theorem pid_above_reaches (counts : ℕ → ℚ) (c : ℚ) (hc : 10000 < c)
    (h : ∀ k, counts k = c) :
    ∃ N : ℕ, pidIterate counts N = 10 := by
  have hq : (0:ℚ) < 3 / 1000 * (c - 10000) := by
    have : (0:ℚ) < c - 10000 := by linarith
    positivity
  obtain ⟨N, hN⟩ := exists_nat_gt ((5:ℚ) / (3 / 1000 * (c - 10000)))
  refine ⟨N, ?_⟩
  rw [pid_above_closed counts c hc h N]
  rw [div_lt_iff₀ hq] at hN
  have : 15 - (N:ℚ) * (3 / 1000 * (c - 10000)) < 10 := by linarith
  rw [max_eq_left (by linarith)]

/-- C8: the rate regulator is a pure integrating controller with integral
gain 0.003, target 10000, output bounds [10, 2000] and initial window 15:
every iteration adds the gain-weighted error (target − observed) to the
window size and saturates to the bounds; counts all equal to 10000 leave
the window at 15 forever; counts all equal to 0 follow the closed form
`min 2000 (15 + 30 n)`, strictly increasing on every step until clamped at
2000 (from iteration 67 on); and any constant count above 10000 follows
`max 10 (15 − n·gain·(count − target))`, strictly decreasing while above
10 and reaching the clamp 10 after finitely many iterations. -/
theorem claim_C8 (counts : ℕ → ℚ) :
    (∀ n : ℕ, pidIterate counts (n + 1) =
      max pidOutMin (min pidOutMax (pidIterate counts n + pidKi * (pidSetpoint - counts n))))
    ∧ ((∀ k, counts k = 10000) → ∀ n, pidIterate counts n = 15)
    ∧ ((∀ k, counts k = 0) →
        (∀ n : ℕ, pidIterate counts n = min 2000 (15 + 30 * (n:ℚ)))
        ∧ (∀ n : ℕ, pidIterate counts n < 2000 →
            pidIterate counts n < pidIterate counts (n + 1))
        ∧ (∀ n : ℕ, 67 ≤ n → pidIterate counts n = 2000))
    ∧ (∀ c : ℚ, 10000 < c → (∀ k, counts k = c) →
        (∀ n : ℕ, pidIterate counts n = max 10 (15 - (n:ℚ) * (pidKi * (c - pidSetpoint))))
        ∧ (∀ n : ℕ, 10 < pidIterate counts n →
            pidIterate counts (n + 1) < pidIterate counts n)
        ∧ (∃ N : ℕ, pidIterate counts N = 10)) := by
  refine ⟨fun n => rfl, pid_target counts, ?_, ?_⟩
  · intro h0
    exact ⟨pid_zero_closed counts h0, pid_zero_inc counts h0, pid_zero_clamp counts h0⟩
  · intro c hc hcc
    refine ⟨?_, pid_above_dec counts c hc hcc, pid_above_reaches counts c hc hcc⟩
    intro n
    rw [pid_above_closed counts c hc hcc n, pidKi, pidSetpoint]

/-- Witness for C8: counts at target leave the window at 15; zero counts
clamp it at 2000 from iteration 70. -/
theorem claim_C8_witness :
    pidIterate (fun _ => 10000) 5 = 15 ∧ pidIterate (fun _ => 0) 70 = 2000 :=
  ⟨(claim_C8 (fun _ => 10000)).2.1 (fun _ => rfl) 5,
   ((claim_C8 (fun _ => 0)).2.2.1 (fun _ => rfl)).2.2 70 (by norm_num)⟩

/-! ## C9 — termination and shape of the backfill search walk -/

theorem floor_pidStep_one (w c : ℚ) : 1 ≤ ⌊pidStep w c⌋ :=
  Int.le_floor.mpr (le_trans (by norm_num [pidOutMin]) (le_max_left pidOutMin _))

theorem store_search_nil (counts : ℕ → ℚ) (minD endD delta : ℤ) (w : ℚ) (k : ℕ)
    (h : 1 ≤ delta) (hgt : ¬ minD < endD) :
    store_search counts minD endD delta w k h = [] := by
  rw [store_search]
  simp [hgt]

theorem store_search_cons (counts : ℕ → ℚ) (minD endD delta : ℤ) (w : ℚ) (k : ℕ)
    (h : 1 ≤ delta) (hgt : minD < endD) :
    store_search counts minD endD delta w k h =
      (endD - delta, endD) ::
        store_search counts minD (endD - delta) ⌊pidStep w (counts k)⌋
          (pidStep w (counts k)) (k + 1) (floor_pidStep_one w (counts k)) := by
  rw [store_search]
  simp [hgt]

theorem store_search_spec (counts : ℕ → ℚ) (minD : ℤ) :
    ∀ (endD delta : ℤ) (w : ℚ) (k : ℕ) (h : 1 ≤ delta),
      (endD ≤ minD → store_search counts minD endD delta w k h = [])
      ∧ (minD < endD → store_search counts minD endD delta w k h ≠ [])
      ∧ (∀ p ∈ store_search counts minD endD delta w k h, p.1 < p.2)
      ∧ (∀ p, (store_search counts minD endD delta w k h).getLast? = some p → p.1 ≤ minD)
      ∧ (∀ (i : ℕ) (p q : ℤ × ℤ),
          (store_search counts minD endD delta w k h)[i]? = some p →
          (store_search counts minD endD delta w k h)[i + 1]? = some q → q.2 = p.1)
      ∧ (∀ p, (store_search counts minD endD delta w k h).head? = some p → p.2 = endD) := by
  intro endD delta w k h
  generalize hg : (endD - minD).toNat = g
  induction g using Nat.strong_induction_on generalizing endD delta w k h with
  | _ g ihg =>
    by_cases hgt : minD < endD
    · rw [store_search_cons counts minD endD delta w k h hgt]
      obtain ⟨ih1, ih2, ih3, ih4, ih5, ih6⟩ :=
        ihg ((endD - delta - minD).toNat) (by omega) (endD - delta)
          ⌊pidStep w (counts k)⌋ (pidStep w (counts k)) (k + 1)
          (floor_pidStep_one w (counts k)) rfl
      refine ⟨fun hle => absurd hgt (by omega), fun _ hcontra => by simp at hcontra,
        ?_, ?_, ?_, ?_⟩
      · intro p hp
        rcases List.mem_cons.mp hp with rfl | hpm
        · simp; omega
        · exact ih3 p hpm
      · intro p hp
        cases hrest : store_search counts minD (endD - delta) ⌊pidStep w (counts k)⌋
            (pidStep w (counts k)) (k + 1) (floor_pidStep_one w (counts k)) with
        | nil =>
          rw [hrest, List.getLast?_singleton] at hp
          injection hp with hp2
          have hstop : ¬ (minD < endD - delta) := fun hlt => ih2 hlt hrest
          rw [← hp2]
          simp
          omega
        | cons b l =>
          rw [hrest, List.getLast?_cons_cons] at hp
          exact ih4 p (by rw [hrest]; exact hp)
      · intro i p q hp hq
        match i with
        | 0 =>
          rw [List.getElem?_cons_zero] at hp
          rw [List.getElem?_cons_succ, ← List.head?_eq_getElem?] at hq
          have hqe := ih6 q hq
          injection hp with hp2
          rw [hqe, ← hp2]
        | i + 1 =>
          rw [List.getElem?_cons_succ] at hp hq
          exact ih5 i p q hp hq
      · intro p hp
        rw [List.head?_cons] at hp
        injection hp with hp2
        rw [← hp2]
    · rw [store_search_nil counts minD endD delta w k h hgt]
      refine ⟨fun _ => rfl, fun hlt => absurd hlt hgt, ?_, ?_, ?_, ?_⟩
      · intro p hp; simp at hp
      · intro p hp; simp at hp
      · intro i p q hp _; simp at hp
      · intro p hp; simp at hp

/-- C9: for every partition, the backfill search walk terminates — it is a
total function on any observed-count feedback — and its window list walks
backward from now: it is empty exactly when the start is already at or
past the epoch floor, every window's start lies strictly before its end
(the bound-clamped window size is strictly positive), the last window's
start has reached or passed the floor — the walk stops exactly there —
each window's end is the previous window's start, and the first window
ends at the starting date. -/
theorem claim_C9 (counts : ℕ → ℚ) (minD endD delta : ℤ) (w : ℚ) (k : ℕ)
    (h : 1 ≤ delta) :
    (endD ≤ minD → store_search counts minD endD delta w k h = [])
    ∧ (minD < endD → store_search counts minD endD delta w k h ≠ [])
    ∧ (∀ p ∈ store_search counts minD endD delta w k h, p.1 < p.2)
    ∧ (∀ p, (store_search counts minD endD delta w k h).getLast? = some p → p.1 ≤ minD)
    ∧ (∀ (i : ℕ) (p q : ℤ × ℤ),
        (store_search counts minD endD delta w k h)[i]? = some p →
        (store_search counts minD endD delta w k h)[i + 1]? = some q → q.2 = p.1)
    ∧ (∀ p, (store_search counts minD endD delta w k h).head? = some p → p.2 = endD) :=
  store_search_spec counts minD endD delta w k h

/-- Witness for C9: a walk starting at or below the floor issues no
window; a walk starting above the floor issues at least one. -/
theorem claim_C9_witness :
    store_search (fun _ => 0) 5 3 1 15 0 (by decide) = []
    ∧ store_search (fun _ => 0) 0 25 15 15 0 (by decide) ≠ [] :=
  ⟨(claim_C9 (fun _ => 0) 5 3 1 15 0 (by decide)).1 (by decide),
   (claim_C9 (fun _ => 0) 0 25 15 15 0 (by decide)).2.1 (by decide)⟩
